import Mathlib

/-!
Verification development for the guest-physical address-space management core
(crate `axaddrspace`): a shallow embedding of the crate's data model and
operations, followed by theorems settling the specification claims.

Machine integers (`usize`, `u64`) are modelled as `Nat`; the two subtraction
sites that rely on two's-complement wrap-around (`start_vaddr - start_paddr`
in `AddrSpace::map_linear` and `va - pa_va_offset` in the linear backend) are
modelled with an explicit wrapping subtraction `wsub` modulo `2 ^ 64`.
-/

namespace AxAddrSpace

/-- Wrap-around for 64-bit `usize` arithmetic. -/
def USIZE : Nat := 2 ^ 64

/-- Rust `a.wrapping_sub(b)` on `usize` (release-mode subtraction). -/
def wsub (a b : Nat) : Nat := (a + (USIZE - b % USIZE)) % USIZE

/-- `memory_addr::align_down` for a power-of-two alignment. -/
def alignDown (a n : Nat) : Nat := a - a % n

/-- `memory_addr::is_aligned_4k`. -/
def isAligned4K (a : Nat) : Bool := decide (a % 4096 = 0)

/-- `page_table_entry::MappingFlags`: bit set over READ, WRITE, EXECUTE,
USER, DEVICE (`src/address_space/mod.rs` re-exports it). -/
structure MappingFlags where
  read : Bool
  write : Bool
  execute : Bool
  user : Bool
  device : Bool
  deriving DecidableEq, Repr

/-- `MappingFlags::empty()`. -/
def MappingFlags.empty : MappingFlags :=
  ⟨false, false, false, false, false⟩

/-- `bitflags` `is_empty`: no bit is set. -/
def MappingFlags.isEmpty (f : MappingFlags) : Bool :=
  !(f.read || f.write || f.execute || f.user || f.device)

/-- `bitflags` `a.contains(b)`: every bit of `b` is set in `a`. -/
def MappingFlags.contains (a b : MappingFlags) : Bool :=
  (!b.read || a.read) && (!b.write || a.write) && (!b.execute || a.execute) &&
    (!b.user || a.user) && (!b.device || a.device)

/-- `MappingFlags::READ | MappingFlags::WRITE`, used by the tests. -/
def MappingFlags.rw : MappingFlags :=
  ⟨true, true, false, false, false⟩

/-- `EPTEntry::PHYS_ADDR_MASK`: bits 12..52 (`src/npt/arch/x86_64.rs`). -/
def EPT_PHYS_ADDR_MASK : Nat := 0xffffffffff000

/-- `From<MappingFlags> for EPTFlags` (`src/npt/arch/x86_64.rs` lines 60-80):
empty maps to the all-zero flags; otherwise R/W/X are copied to bits 0/1/2 and
the memory-type field (bits 3..5) is set to write-back (6) unless DEVICE is
present, in which case it stays uncached (0). -/
def eptFlagBits (f : MappingFlags) : Nat :=
  if f.isEmpty then 0
  else
    (if f.read then 1 else 0) ||| (if f.write then 2 else 0) |||
      (if f.execute then 4 else 0) ||| (if f.device then 0 else 48)

/-- `From<EPTFlags> for MappingFlags` (`src/npt/arch/x86_64.rs` lines 82-99):
R/W/X are read back from bits 0/1/2, and DEVICE is set exactly when the
memory-type field (bits 3..5) decodes to `EPTMemType::Uncached` (0). -/
def eptToMapping (bits : Nat) : MappingFlags where
  read := decide (bits &&& 1 ≠ 0)
  write := decide (bits &&& 2 ≠ 0)
  execute := decide (bits &&& 4 ≠ 0)
  user := false
  device := decide ((bits >>> 3) &&& 7 = 0)

/-- The composed conversion `MappingFlags → EPTFlags → MappingFlags`. -/
def roundTripFlags (f : MappingFlags) : MappingFlags :=
  eptToMapping (eptFlagBits f)

/-- Raw 64-bit value built by `EPTEntry::new_page(paddr, flags, is_huge)`
(`src/npt/arch/x86_64.rs` lines 112-118): the encoded flags, bit 7 when the
entry maps a huge page, and the masked host-physical frame address. -/
def newPageBits (paddr : Nat) (f : MappingFlags) (isHuge : Bool) : Nat :=
  (eptFlagBits f ||| (if isHuge then 128 else 0)) ||| (paddr &&& EPT_PHYS_ADDR_MASK)

/-- `EPTEntry::is_present`: RWX bits (0..2) nonzero. -/
def isPresentBits (bits : Nat) : Bool :=
  decide (bits &&& 7 ≠ 0)

/-- The memory-type field, `bits.get_bits(3..6)` (`EPTFlags::mem_type`). -/
def memTypeBits (bits : Nat) : Nat :=
  (bits >>> 3) &&& 7

/-- Page sizes supported by the nested page table
(`page_table_multiarch::PageSize`). -/
inductive PageSize where
  | size4K
  | size2M
  | size1G
  deriving DecidableEq, Repr

/-- Size in bytes of a `PageSize`. -/
def PageSize.bytes : PageSize → Nat
  | .size4K => 4096
  | .size2M => 2097152
  | .size1G => 1073741824

/-- `PageSize::is_huge`. -/
def PageSize.isHuge : PageSize → Bool
  | .size4K => false
  | _ => true

/-- One leaf slot of the nested page table.

Modelled from the spec: the multi-level radix page-table engine
(`page_table_multiarch::PageTable64`, spec section 4.2) is not part of this
crate's sources; we model the tree as the flat list of its leaf slots. A slot
records the guest-physical base of the leaf, the leaf's page size, and the
host-physical address and mapping flags it was installed with. The raw
64-bit EPT entry stored in the slot is recovered by `PTE.entryBits`. The
engine's structural invariants (leaf bases aligned to their page size,
distinct leaf slots covering disjoint guest ranges) appear below as
`ptWF` and `ptDisjoint`. -/
structure PTE where
  base : Nat
  pgsz : PageSize
  paddr : Nat
  flags : MappingFlags
  deriving DecidableEq, Repr

/-- The raw EPT entry held in a leaf slot (`EPTEntry::new_page` applied to the
recorded address and flags, with the huge bit for 2M/1G leaves). -/
def PTE.entryBits (e : PTE) : Nat :=
  newPageBits e.paddr e.flags e.pgsz.isHuge

/-- The nested page table, as the list of its leaf slots. -/
abbrev PageTable := List PTE

/-- Whether a leaf slot's guest range covers `va`. -/
def PTE.covers (e : PTE) (va : Nat) : Bool :=
  decide (e.base ≤ va ∧ va < e.base + e.pgsz.bytes)

/-- The leaf slot whose range covers `va`, if any. -/
def ptFind (pt : PageTable) (va : Nat) : Option PTE :=
  List.find? (fun e => e.covers va) pt

/-- `PageTable64::query` (modelled from the spec, section 4.2): walk to the
leaf covering `va`; fail (`NotMapped`) when the stored entry is all-zero
(`EPTEntry::is_unused`); otherwise return the entry's masked physical address
plus the in-page offset, the decoded flags, and the page size. -/
def ptQuery (pt : PageTable) (va : Nat) : Option (Nat × MappingFlags × PageSize) :=
  match ptFind pt va with
  | none => none
  | some e =>
    if e.entryBits = 0 then none
    else some ((e.entryBits &&& EPT_PHYS_ADDR_MASK) + va % e.pgsz.bytes,
      eptToMapping e.entryBits, e.pgsz)

/-- `PageTable64::map` (modelled from the spec, section 4.2): locate (or
create the path to) the leaf slot of the requested size covering `va`; fail
with `AlreadyMapped` when the slot holds a nonzero entry; otherwise install
`new_page(paddr aligned down to the page size, flags)` there. Replacing an
all-zero slot removes it from the list model; under `ptDisjoint` at most one
slot covers the base. -/
def ptMapEntry (pt : PageTable) (va paddr : Nat) (ps : PageSize)
    (fl : MappingFlags) : Option PageTable :=
  match ptFind pt (alignDown va ps.bytes) with
  | some e =>
    if e.entryBits = 0 then
      some (⟨alignDown va ps.bytes, ps, alignDown paddr ps.bytes, fl⟩ ::
        pt.filter (fun x => !(x.covers (alignDown va ps.bytes))))
    else none
  | none => some (⟨alignDown va ps.bytes, ps, alignDown paddr ps.bytes, fl⟩ :: pt)

/-- `PageTable64::remap` (modelled from the spec, section 4.2): walk to the
leaf slot covering `va` (the caller need not align `va`); replace the slot's
physical address and flags, keeping its page size; fail (`NotMapped`) when no
leaf path exists. -/
def ptRemap (pt : PageTable) (va paddr : Nat) (fl : MappingFlags) :
    Option (PageTable × PageSize) :=
  match pt with
  | [] => none
  | e :: rest =>
    if e.covers va then some (⟨e.base, e.pgsz, paddr, fl⟩ :: rest, e.pgsz)
    else
      match ptRemap rest va paddr fl with
      | some (pt', sz) => some (e :: pt', sz)
      | none => none

/-- `PageTable64::unmap` (modelled from the spec, section 4.2): walk to the
leaf covering `va`; fail (`NotMapped`) on an all-zero entry; otherwise clear
the slot and return the frame address it pointed to and the page size. -/
def ptUnmap (pt : PageTable) (va : Nat) : Option (Nat × PageSize × PageTable) :=
  match ptFind pt va with
  | none => none
  | some e =>
    if e.entryBits = 0 then none
    else some (e.entryBits &&& EPT_PHYS_ADDR_MASK, e.pgsz,
      pt.filter (fun x => !(x.covers va)))

/-- `PageTable64::map_region` with `allow_huge = false` (modelled from the
spec, section 4.2): map `n` consecutive 4 KiB pages starting at `s`, the page
at `p` to `getPaddr p`; stop (leaving the earlier pages mapped) as soon as one
`map` fails. -/
def mapRegion4K (pt : PageTable) (s : Nat) (n : Nat) (getPaddr : Nat → Nat)
    (fl : MappingFlags) : Bool × PageTable :=
  match n with
  | 0 => (true, pt)
  | n + 1 =>
    match ptMapEntry pt s (getPaddr s) .size4K fl with
    | none => (false, pt)
    | some pt1 => mapRegion4K pt1 (s + 4096) n getPaddr fl

/-- Structural invariant of the radix tree: every leaf slot's base is aligned
to its page size. -/
def ptWF (pt : PageTable) : Prop :=
  ∀ e ∈ pt, e.base % e.pgsz.bytes = 0

/-- Structural invariant of the radix tree: distinct leaf slots cover
disjoint guest-physical ranges. -/
def ptDisjoint (pt : PageTable) : Prop :=
  List.Pairwise
    (fun a b => a.base + a.pgsz.bytes ≤ b.base ∨ b.base + b.pgsz.bytes ≤ a.base) pt

/-- The global frame allocator (`PagingHandler`), modelled as the list of host
frame addresses it will hand out next. Released frames are not recycled by
the model (no claim observes reuse). -/
abbrev Hal := List Nat

/-- `H::alloc_frame()`: hand out the next available frame, or fail. -/
def allocFrame (hal : Hal) : Option (Nat × Hal) :=
  match hal with
  | [] => none
  | f :: rest => some (f, rest)

/-- `H::alloc_frames(n, align)`: hand out the base of the next contiguous
block, or fail. The model treats one list element as one block. -/
def allocFrames (hal : Hal) : Option (Nat × Hal) :=
  allocFrame hal

/-- Valid allocator contents: 4 KiB-aligned nonzero frame addresses inside
the 52-bit host-physical space. -/
def halWF (hal : Hal) : Prop :=
  ∀ f ∈ hal, f % 4096 = 0 ∧ 0 < f ∧ f < 2 ^ 52

/-- The mapping backend attached to a region
(`src/address_space/backend/mod.rs`): `Linear { pa_va_offset }` or
`Alloc { populate }`. -/
inductive Backend where
  | linear (paVaOffset : Nat)
  | alloc (populate : Bool)
  deriving DecidableEq, Repr

/-- One region: `memory_set::MemoryArea` specialised to this crate's backend
(start address, size in bytes, permission flags, backend). -/
structure MemoryArea where
  start : Nat
  size : Nat
  flags : MappingFlags
  backend : Backend
  deriving DecidableEq, Repr

/-- Whether a region's range `[start, start + size)` contains `addr`. -/
def MemoryArea.containsAddr (a : MemoryArea) (addr : Nat) : Bool :=
  decide (a.start ≤ addr ∧ addr < a.start + a.size)

/-- `MemorySet::find(addr)`: the region containing `addr`, if any
(modelled from the spec: the memory set is an ordered map of disjoint
regions, so at most one matches). -/
def areasFind (areas : List MemoryArea) (addr : Nat) : Option MemoryArea :=
  List.find? (fun a => a.containsAddr addr) areas

/-- Overlap of two half-open region ranges. -/
def areasOverlap (a b : MemoryArea) : Bool :=
  decide (a.start < b.start + b.size ∧ b.start < a.start + a.size)

/-- `Backend::map_linear` (`src/address_space/backend/linear.rs` lines
15-42): `map_region` over the range with `get_paddr = |va| va - pa_va_offset`
(wrapping usize subtraction). `AddrSpace::map_linear` constructs the backend
through the one-argument `Backend::new_linear(offset)`, whose mapping path
does not permit huge pages, so the 4 KiB `map_region` path is taken. -/
def backendMapLinear (pt : PageTable) (start size : Nat) (fl : MappingFlags)
    (ofs : Nat) : Bool × PageTable :=
  if isAligned4K start && isAligned4K size then
    mapRegion4K pt start (size / 4096) (fun va => wsub va ofs) fl
  else (false, pt)

/-- The populated sweep of `Backend::map_alloc`
(`src/address_space/backend/alloc.rs` lines 35-79) over one tier: allocate a
frame (block) for each page in the list and install a leaf of the given size;
stop and report failure as soon as an allocation or installation fails. -/
def popMapPages (ps : PageSize) (fl : MappingFlags) :
    List Nat → PageTable → Hal → Bool × PageTable × Hal
  | [], pt, hal => (true, pt, hal)
  | p :: rest, pt, hal =>
    match allocFrames hal with
    | none => (false, pt, hal)
    | some (frame, hal') =>
      match ptMapEntry pt p frame ps fl with
      | none => (false, pt, hal')
      | some pt' => popMapPages ps fl rest pt' hal'

/-- The pages `[s, s + n·step)` in steps of `step` (a `PageIter`). -/
def pageList (s step n : Nat) : List Nat :=
  (List.range n).map (fun i => s + step * i)

/-- `Backend::map_alloc` with `populate = true`
(`src/address_space/backend/alloc.rs` lines 35-79): greedily map 1 GiB
leaves when the start is 1 GiB-aligned and the size is at least 1 GiB (and
then skip to the end of the range), then likewise 2 MiB leaves, then fill
with 4 KiB leaves. -/
def mapAllocPopulate (pt : PageTable) (hal : Hal) (start size : Nat)
    (fl : MappingFlags) : Bool × PageTable × Hal :=
  let endAddr := start + size
  let g := PageSize.size1G.bytes
  let m := PageSize.size2M.bytes
  let step1 :=
    if start % g = 0 ∧ size ≥ g then
      let r := popMapPages .size1G fl
        (pageList start g ((alignDown endAddr g - start) / g)) pt hal
      (r.1, r.2.1, r.2.2, endAddr)
    else (true, pt, hal, start)
  match step1 with
  | (false, pt1, hal1, _) => (false, pt1, hal1)
  | (true, pt1, hal1, s1) =>
    let step2 :=
      if s1 % m = 0 ∧ size ≥ m then
        let r := popMapPages .size2M fl
          (pageList s1 m ((alignDown endAddr m - s1) / m)) pt1 hal1
        (r.1, r.2.1, r.2.2, endAddr)
      else (true, pt1, hal1, s1)
    match step2 with
    | (false, pt2, hal2, _) => (false, pt2, hal2)
    | (true, pt2, hal2, s2) =>
      popMapPages .size4K fl (pageList s2 4096 ((endAddr - s2) / 4096)) pt2 hal2

/-- `Backend::map_alloc` with `populate = false`
(`src/address_space/backend/alloc.rs` lines 80-91): `map_region` over the
range with `get_paddr = |_| 0` and empty flags, reserving the leaf slots
without committing frames (the installed entries are all-zero). -/
def backendMapAllocLazy (pt : PageTable) (start size : Nat) : Bool × PageTable :=
  if isAligned4K start && isAligned4K size then
    mapRegion4K pt start (size / 4096) (fun _ => 0) MappingFlags.empty
  else (false, pt)

/-- The query-and-release sweep of `Backend::unmap_alloc`
(`src/address_space/backend/alloc.rs` lines 103-132), with explicit fuel:
while `addr` is below the end, query it; at a leaf, fail unless `addr` is
aligned to the leaf's page size, otherwise release the frame and advance by
the page size; when the query fails the source merely falls through to the
next loop iteration without advancing `addr`. `none` means the fuel ran out
with the loop still running. -/
def unmapAllocSweep (pt : PageTable) (endAddr : Nat) :
    Nat → Nat → Option Bool
  | 0, _ => none
  | fuel + 1, addr =>
    if addr < endAddr then
      match ptQuery pt addr with
      | some (_, _, ps) =>
        if addr % ps.bytes = 0 then unmapAllocSweep pt endAddr fuel (addr + ps.bytes)
        else some false
      | none => unmapAllocSweep pt endAddr fuel addr
    else some true

/-- The residual 4 KiB unmap pass of `Backend::unmap_alloc`
(`src/address_space/backend/alloc.rs` lines 134-145): unmap every 4 KiB page
of the range that still has a nonzero entry, failing on a huge leaf. -/
def unmapAllocResidual (fl : List Nat) (pt : PageTable) : Bool × PageTable
  := match fl with
  | [] => (true, pt)
  | p :: rest =>
    match ptUnmap pt p with
    | some (_, ps, pt') =>
      if ps.isHuge then (false, pt) else unmapAllocResidual rest pt'
    | none => unmapAllocResidual rest pt

/-- `Backend::unmap_alloc` (`src/address_space/backend/alloc.rs` lines
94-147): the query-and-release sweep followed by the residual 4 KiB pass.
The sweep's missing-page stall is surfaced as `none` (out of fuel). -/
def backendUnmapAlloc (pt : PageTable) (start size fuel : Nat) :
    Option (Bool × PageTable) :=
  match unmapAllocSweep pt (start + size) fuel start with
  | none => none
  | some false => some (false, pt)
  | some true => some (unmapAllocResidual (pageList start 4096 (size / 4096)) pt)

/-- `Backend::unmap_linear` (`src/address_space/backend/linear.rs` lines
44-53): `unmap_region` over the range; no frames are released. Modelled from
the spec (section 4.2): remove every leaf of the range from the table. -/
def backendUnmapLinear (pt : PageTable) (start size : Nat) : Bool × PageTable :=
  (true, pt.filter (fun e => !(decide (start ≤ e.base ∧ e.base < start + size))))

/-- `Backend::handle_page_fault_alloc`
(`src/address_space/backend/alloc.rs` lines 149-166): populated regions never
handle faults; a lazy region allocates one frame and remaps the faulting
address to it with the region's original flags. -/
def backendHandlePageFaultAlloc (vaddr : Nat) (origFlags : MappingFlags)
    (pt : PageTable) (hal : Hal) (populate : Bool) : Bool × PageTable × Hal :=
  if populate then (false, pt, hal)
  else
    match allocFrame hal with
    | none => (false, pt, hal)
    | some (frame, hal') =>
      match ptRemap pt vaddr frame origFlags with
      | some (pt', _) => (true, pt', hal')
      | none => (false, pt, hal')

/-- `Backend::handle_page_fault` (`src/address_space/backend/mod.rs` lines
91-104): linear regions never handle faults; alloc regions delegate to
`handle_page_fault_alloc`. -/
def backendHandlePageFault (bk : Backend) (vaddr : Nat)
    (origFlags : MappingFlags) (pt : PageTable) (hal : Hal) :
    Bool × PageTable × Hal :=
  match bk with
  | .linear _ => (false, pt, hal)
  | .alloc populate => backendHandlePageFaultAlloc vaddr origFlags pt hal populate

/-- `MappingBackend::map` for `Backend`
(`src/address_space/backend/mod.rs` lines 66-80). -/
def backendMap (bk : Backend) (start size : Nat) (fl : MappingFlags)
    (pt : PageTable) (hal : Hal) : Bool × PageTable × Hal :=
  match bk with
  | .linear ofs =>
    let r := backendMapLinear pt start size fl ofs
    (r.1, r.2, hal)
  | .alloc populate =>
    if populate then mapAllocPopulate pt hal start size fl
    else
      let r := backendMapAllocLazy pt start size
      (r.1, r.2, hal)

/-- Error kinds surfaced by the address space (`axerrno::AxError`, restricted
to the kinds this crate produces). -/
inductive AxErr where
  | invalidInput
  | noMemory
  | alreadyExists
  | badState
  deriving DecidableEq, Repr

/-- Outcome of a fallible address-space operation. -/
inductive AxRes where
  | ok
  | err (e : AxErr)
  deriving DecidableEq, Repr

/-- `MemorySet::map(area, page_table, unmap_overlap = false)` (modelled from
the spec, section 3: ordered non-overlapping region set). An empty range is
`InvalidParam` (surfaced as `InvalidInput` through `mapping_err_to_ax_err`),
an overlap is `AlreadyExists`, and a backend failure is `BadState` with the
page table left in the partial state the backend produced. On success the
area is inserted. -/
def msMap (areas : List MemoryArea) (area : MemoryArea) (pt : PageTable)
    (hal : Hal) : AxRes × List MemoryArea × PageTable × Hal :=
  if area.size = 0 then (.err .invalidInput, areas, pt, hal)
  else if areas.any (fun b => areasOverlap b area) then
    (.err .alreadyExists, areas, pt, hal)
  else
    match backendMap area.backend area.start area.size area.flags pt hal with
    | (true, pt', hal') => (.ok, area :: areas, pt', hal')
    | (false, pt', hal') => (.err .badState, areas, pt', hal')

/-- `MemorySet::unmap(start, size, page_table)` (modelled from the spec,
section 3): shrink or split every region intersecting the range and run its
backend's unmap over the removed piece. `none` propagates a backend sweep
that ran out of fuel (the source loops forever there). -/
def msUnmap (areas : List MemoryArea) (pt : PageTable) (start size fuel : Nat) :
    Option (AxRes × List MemoryArea × PageTable) :=
  match areas with
  | [] => some (.ok, [], pt)
  | a :: rest =>
    if start + size ≤ a.start ∨ a.start + a.size ≤ start then
      match msUnmap rest pt start size fuel with
      | some (r, rest', pt') => some (r, a :: rest', pt')
      | none => none
    else
      let i0 := max a.start start
      let i1 := min (a.start + a.size) (start + size)
      let keep :=
        (if a.start < i0 then [MemoryArea.mk a.start (i0 - a.start) a.flags a.backend]
          else []) ++
        (if i1 < a.start + a.size then
          [MemoryArea.mk i1 (a.start + a.size - i1) a.flags a.backend] else [])
      let res :=
        match a.backend with
        | .linear _ => some (backendUnmapLinear pt i0 (i1 - i0))
        | .alloc _ => backendUnmapAlloc pt i0 (i1 - i0) fuel
      match res with
      | none => none
      | some (false, pt') => some (.err .badState, keep ++ rest, pt')
      | some (true, pt') =>
        match msUnmap rest pt' start size fuel with
        | some (r, rest', pt'') => some (r, keep ++ rest', pt'')
        | none => none

/-- `AddrSpace` (`src/address_space/mod.rs`): the guest-physical range
`[base, base + asize)`, the region set, and the nested page table. -/
structure AddrSpace where
  base : Nat
  asize : Nat
  areas : List MemoryArea
  pt : PageTable
  deriving DecidableEq, Repr

/-- `AddrSpace::new_empty(base, size)` (the root-table frame allocation is
outside the leaf-slot model). -/
def AddrSpace.newEmpty (base size : Nat) : AddrSpace :=
  ⟨base, size, [], []⟩

/-- `va_range.contains(vaddr)`. -/
def AddrSpace.vaContains (A : AddrSpace) (addr : Nat) : Bool :=
  decide (A.base ≤ addr ∧ addr < A.base + A.asize)

/-- `AddrSpace::contains_range(start, size)`:
`va_range.contains_range(from_start_size(start, size))`. -/
def AddrSpace.containsRange (A : AddrSpace) (start size : Nat) : Bool :=
  decide (A.base ≤ start ∧ start + size ≤ A.base + A.asize)

/-- `AddrSpace::map_linear` (`src/address_space/mod.rs` lines 70-90):
validate the range and the 4 KiB alignment of the guest start, host start and
size; then register a `Linear` region with `pa_va_offset = start_vaddr -
start_paddr` (wrapping) and map it. -/
def AddrSpace.map_linear (A : AddrSpace) (startVaddr startPaddr size : Nat)
    (fl : MappingFlags) (hal : Hal) : AxRes × AddrSpace × Hal :=
  if !(A.containsRange startVaddr size) then (.err .invalidInput, A, hal)
  else if !(isAligned4K startVaddr && isAligned4K startPaddr && isAligned4K size)
  then (.err .invalidInput, A, hal)
  else
    let ofs := wsub startVaddr startPaddr
    let r := msMap A.areas ⟨startVaddr, size, fl, .linear ofs⟩ A.pt hal
    (r.1, { A with areas := r.2.1, pt := r.2.2.1 }, r.2.2.2)

/-- `AddrSpace::map_alloc` (`src/address_space/mod.rs` lines 97-119):
validate the range and the 4 KiB alignment of start and size; then register
an `Alloc { populate }` region and map it. -/
def AddrSpace.map_alloc (A : AddrSpace) (start size : Nat) (fl : MappingFlags)
    (populate : Bool) (hal : Hal) : AxRes × AddrSpace × Hal :=
  if !(A.containsRange start size) then (.err .invalidInput, A, hal)
  else if !(isAligned4K start && isAligned4K size) then (.err .invalidInput, A, hal)
  else
    let r := msMap A.areas ⟨start, size, fl, .alloc populate⟩ A.pt hal
    (r.1, { A with areas := r.2.1, pt := r.2.2.1 }, r.2.2.2)

/-- `AddrSpace::unmap` (`src/address_space/mod.rs` lines 122-134): validate
the range and the 4 KiB alignment of start and size; then remove the covered
region parts. `none` propagates a backend sweep that ran out of fuel. -/
def AddrSpace.unmap (A : AddrSpace) (start size fuel : Nat) :
    Option (AxRes × AddrSpace) :=
  if !(A.containsRange start size) then some (.err .invalidInput, A)
  else if !(isAligned4K start && isAligned4K size) then
    some (.err .invalidInput, A)
  else
    match msUnmap A.areas A.pt start size fuel with
    | some (r, areas', pt') => some (r, { A with areas := areas', pt := pt' })
    | none => none

/-- `AddrSpace::handle_page_fault` (`src/address_space/mod.rs` lines
147-161): reject addresses outside the guest-physical range; find the
covering region; reject when the region's flags do not contain the access
flags; otherwise delegate to the region's backend with the region's original
flags. -/
def AddrSpace.handle_page_fault (A : AddrSpace) (vaddr : Nat)
    (accessFlags : MappingFlags) (hal : Hal) : Bool × AddrSpace × Hal :=
  if !(A.vaContains vaddr) then (false, A, hal)
  else
    match areasFind A.areas vaddr with
    | some area =>
      if !(area.flags.contains accessFlags) then (false, A, hal)
      else
        let r := backendHandlePageFault area.backend vaddr area.flags A.pt hal
        (r.1, { A with pt := r.2.1 }, r.2.2)
    | none => (false, A, hal)

/-- `AddrSpace::translate` (`src/address_space/mod.rs` lines 166-177):
`None` outside the range; otherwise the physical address of a successful
page-table query. -/
def AddrSpace.translate (A : AddrSpace) (vaddr : Nat) : Option Nat :=
  if !(A.vaContains vaddr) then none
  else (ptQuery A.pt vaddr).map (fun r => r.1)

/-- `AddrSpace::translate_and_get_limit` (`src/address_space/mod.rs` lines
234-246): `None` outside the range or without a covering region; otherwise
the physical address of a successful query paired with the covering region's
size (`area.size()`). -/
def AddrSpace.translateAndGetLimit (A : AddrSpace) (vaddr : Nat) :
    Option (Nat × Nat) :=
  if !(A.vaContains vaddr) then none
  else
    match areasFind A.areas vaddr with
    | some area => (ptQuery A.pt vaddr).map (fun r => (r.1, area.size))
    | none => none

/-- Outcome of `AddrSpace::translated_byte_buffer`: a normal return
(`Some(chunks)` or `None`), a panic (`.unwrap()` on a failed query), or fuel
exhaustion of the model's loop counter. -/
inductive TbbOutcome where
  | ret (v : Option (List (Nat × Nat)))
  | panicked
  | fuelOut
  deriving DecidableEq, Repr

/-- The chunking loop of `AddrSpace::translated_byte_buffer`
(`src/address_space/mod.rs` lines 211-223): while `start < end`, query the
page table — the source calls `.unwrap()` on the result, so a failed query
panics — and push a host slice from the translated address to the smaller of
the page end and the buffer end. -/
def tbbLoop (pt : PageTable) (p2v : Nat → Nat) (endAddr : Nat) :
    Nat → Nat → List (Nat × Nat) → TbbOutcome
  | 0, _, _ => .fuelOut
  | fuel + 1, start, acc =>
    if start < endAddr then
      match ptQuery pt start with
      | none => .panicked
      | some (pa, _, ps) =>
        let endVa := min (alignDown start ps.bytes + ps.bytes) endAddr
        tbbLoop pt p2v endAddr fuel endVa (acc ++ [(p2v pa, endVa - start)])
    else .ret (some acc)

/-- `AddrSpace::translated_byte_buffer` (`src/address_space/mod.rs` lines
182-228): `None` outside the range, without a covering region, or when `len`
exceeds the region size; otherwise the page-by-page chunk list. `p2v` is
`H::phys_to_virt`. -/
def AddrSpace.translatedByteBuffer (A : AddrSpace) (p2v : Nat → Nat)
    (vaddr len : Nat) : TbbOutcome :=
  if !(A.vaContains vaddr) then .ret none
  else
    match areasFind A.areas vaddr with
    | some area =>
      if len > area.size then .ret none
      else tbbLoop A.pt p2v (vaddr + len) (len + 1) vaddr []
    | none => .ret none

/-- Outcome of an accessor buffer operation: success, `InvalidInput`, or fuel
exhaustion of the model's loop counter. -/
inductive BufRes (α : Type) where
  | ok (a : α)
  | invalidInput
  | fuelOut
  deriving DecidableEq, Repr

/-- The `k` bytes of host memory starting at `pa`. -/
def readChunk (mem : Nat → Nat) (pa k : Nat) : List Nat :=
  (List.range k).map (fun i => mem (pa + i))

/-- Host memory after `copy_nonoverlapping(buf, pa, buf.len())`. -/
def writeChunk (mem : Nat → Nat) (pa : Nat) (buf : List Nat) : Nat → Nat :=
  fun a => if pa ≤ a ∧ a < pa + buf.length then buf.getD (a - pa) 0 else mem a

/-- The region-by-region loop of `GuestMemoryAccessor::read_buffer`
(`src/memory_accessor.rs` lines 104-125): while bytes remain, translate the
current guest address, copy `min(remaining, limit)` bytes and advance both
the guest address and the output cursor by that amount. -/
def readBufLoop (T : Nat → Option (Nat × Nat)) (mem : Nat → Nat) :
    Nat → Nat → Nat → List Nat → BufRes (List Nat)
  | fuel, addr, rem, acc =>
    if rem = 0 then .ok acc
    else
      match fuel with
      | 0 => .fuelOut
      | fuel + 1 =>
        match T addr with
        | none => .invalidInput
        | some (pa, lim) =>
          readBufLoop T mem fuel (addr + min rem lim) (rem - min rem lim)
            (acc ++ readChunk mem pa (min rem lim))

/-- `GuestMemoryAccessor::read_buffer` (`src/memory_accessor.rs` lines
81-128): empty buffers succeed immediately; a buffer fitting the first
region's limit is copied in one shot; otherwise the chunked loop runs. `T`
is the consumer's `translate_and_get_limit`; the buffer is its length `n`,
and the result carries the bytes read. -/
def read_buffer (T : Nat → Option (Nat × Nat)) (mem : Nat → Nat)
    (addr n : Nat) : BufRes (List Nat) :=
  if n = 0 then .ok []
  else
    match T addr with
    | none => .invalidInput
    | some (pa, lim) =>
      if n ≤ lim then .ok (readChunk mem pa n)
      else readBufLoop T mem n addr n []

/-- The region-by-region loop of `GuestMemoryAccessor::write_buffer`
(`src/memory_accessor.rs` lines 154-171). -/
def writeBufLoop (T : Nat → Option (Nat × Nat)) :
    Nat → Nat → List Nat → (Nat → Nat) → BufRes (Nat → Nat)
  | fuel, addr, buf, mem =>
    if buf.isEmpty then .ok mem
    else
      match fuel with
      | 0 => .fuelOut
      | fuel + 1 =>
        match T addr with
        | none => .invalidInput
        | some (pa, lim) =>
          writeBufLoop T fuel (addr + min buf.length lim)
            (buf.drop (min buf.length lim))
            (writeChunk mem pa (buf.take (min buf.length lim)))

/-- `GuestMemoryAccessor::write_buffer` (`src/memory_accessor.rs` lines
131-174): empty buffers succeed immediately; a buffer fitting the first
region's limit is copied in one shot; otherwise the chunked loop runs. The
result carries the updated host memory. -/
def write_buffer (T : Nat → Option (Nat × Nat)) (mem : Nat → Nat)
    (addr : Nat) (buf : List Nat) : BufRes (Nat → Nat) :=
  if buf.isEmpty then .ok mem
  else
    match T addr with
    | none => .invalidInput
    | some (pa, lim) =>
      if buf.length ≤ lim then .ok (writeChunk mem pa buf)
      else writeBufLoop T buf.length addr buf mem

/-! Concrete scenarios used by counterexamples and witnesses. -/

/-- A small allocator supply of valid frames. -/
def halScenario : Hal := [0x100000, 0x101000, 0x102000]

/-- An address space `[0x10000, 0x20000)` with a populated 3-page alloc
region `[0x10000, 0x13000)` (the populated-alloc test scenario). -/
def popAspace : AddrSpace :=
  ((AddrSpace.newEmpty 0x10000 0x10000).map_alloc 0x10000 0x3000 .rw true
    halScenario).2.1

/-- An address space `[0x10000, 0x20000)` with a lazy (populate = false)
alloc region `[0x13000, 0x14000)` whose page was never faulted in (the
lazy-alloc test scenario). -/
def lazyAspace : AddrSpace :=
  ((AddrSpace.newEmpty 0x10000 0x10000).map_alloc 0x13000 0x1000 .rw false
    halScenario).2.1

/-- A translator mapping every guest address to itself with a 4 KiB limit. -/
def transStub : Nat → Option (Nat × Nat) := fun a => some (a, 4096)

/-- An address space `[0x10000, 0x20000)` with one linear region
`[0x18000, 0x1A000)` at host base `0x10000` (the map-linear test scenario). -/
def linearAspace : AddrSpace :=
  ((AddrSpace.newEmpty 0x10000 0x10000).map_linear 0x18000 0x10000 0x2000 .rw
    []).2.1

/-- A degenerate linear mapping: guest page 0 mapped to host frame 0 with
empty flags, producing an all-zero EPT entry. -/
def zeroLinAspace : AddrSpace :=
  ((AddrSpace.newEmpty 0 0x10000).map_linear 0 0 0x1000 .empty []).2.1

/-- A linear mapping whose host base `2 ^ 52` lies outside the EPT
`PHYS_ADDR_MASK`, so the stored frame address is truncated. -/
def highLinAspace : AddrSpace :=
  ((AddrSpace.newEmpty 0x10000 0x10000).map_linear 0x10000 (2 ^ 52) 0x1000 .rw
    []).2.1

/-! Bit-level helper lemmas for the EPT entry encoding. -/

theorem natOrAndDistrib (x y c : Nat) : (x ||| y) &&& c = (x &&& c) ||| (y &&& c) :=
  Nat.eq_of_testBit_eq fun i => by
    simp [Nat.testBit_and, Nat.testBit_or, Bool.and_or_distrib_right]

theorem natShiftRightOr (x y n : Nat) : (x ||| y) >>> n = (x >>> n) ||| (y >>> n) :=
  Nat.eq_of_testBit_eq fun i => by
    simp [Nat.testBit_shiftRight, Nat.testBit_or]

theorem shiftLeftAndDistrib (a b n : Nat) : (a &&& b) <<< n = (a <<< n) &&& (b <<< n) :=
  Nat.eq_of_testBit_eq fun i => by
    simp only [Nat.testBit_shiftLeft, Nat.testBit_and]
    cases Nat.decLe n i with
    | isTrue h => simp [h]
    | isFalse h => simp [h]

theorem memTypeOr (x y : Nat) : memTypeBits (x ||| y) = memTypeBits x ||| memTypeBits y := by
  unfold memTypeBits
  rw [natShiftRightOr, natOrAndDistrib]

theorem maskedAnd7 (p : Nat) : (p &&& EPT_PHYS_ADDR_MASK) &&& 7 = 0 := by
  rw [Nat.and_assoc]
  have h : EPT_PHYS_ADDR_MASK &&& 7 = 0 := by decide
  rw [h, Nat.and_zero]

theorem maskedMod4096 (p : Nat) : (p &&& EPT_PHYS_ADDR_MASK) % 4096 = 0 := by
  have h := Nat.and_pow_two_sub_one_eq_mod (p &&& EPT_PHYS_ADDR_MASK) 12
  norm_num at h
  rw [← h, Nat.and_assoc]
  have h2 : EPT_PHYS_ADDR_MASK &&& 4095 = 0 := by decide
  rw [h2, Nat.and_zero]

theorem maskedMemType (p : Nat) : memTypeBits (p &&& EPT_PHYS_ADDR_MASK) = 0 := by
  unfold memTypeBits
  have h := Nat.and_pow_two_sub_one_eq_mod ((p &&& EPT_PHYS_ADDR_MASK) >>> 3) 3
  norm_num at h
  rw [h, Nat.shiftRight_eq_div_pow]
  have h2 := maskedMod4096 p
  norm_num
  omega

theorem newPageAnd7 (p : Nat) (f : MappingFlags) (hg : Bool) :
    newPageBits p f hg &&& 7 = eptFlagBits f &&& 7 := by
  unfold newPageBits
  rw [natOrAndDistrib, natOrAndDistrib, maskedAnd7]
  have h : (if hg then 128 else 0) &&& 7 = 0 := by cases hg <;> decide
  rw [h, Nat.or_zero, Nat.or_zero]

theorem newPageMemType (p : Nat) (f : MappingFlags) (hg : Bool) :
    memTypeBits (newPageBits p f hg) = memTypeBits (eptFlagBits f) := by
  unfold newPageBits
  rw [memTypeOr, memTypeOr, maskedMemType]
  have h : memTypeBits (if hg then 128 else 0) = 0 := by cases hg <;> decide
  rw [h, Nat.or_zero, Nat.or_zero]

/-- C8: the EPT entry built by `EPTEntry::new_page(paddr, f, is_huge)` is
present exactly when `f` contains READ, WRITE or EXECUTE, and for non-empty
`f` its memory-type field is uncached (0) when `f` contains DEVICE and
write-back (6) otherwise. -/
theorem c8_ept_encoding (f : MappingFlags) (paddr : Nat) (isHuge : Bool) :
    (isPresentBits (newPageBits paddr f isHuge) = true ↔
      (f.read = true ∨ f.write = true ∨ f.execute = true)) ∧
    (f.isEmpty = false →
      memTypeBits (newPageBits paddr f isHuge) = if f.device then 0 else 6) := by
  have h1 := newPageAnd7 paddr f isHuge
  have h2 := newPageMemType paddr f isHuge
  constructor
  · unfold isPresentBits
    rw [h1]
    obtain ⟨r, w, x, u, d⟩ := f
    cases r <;> cases w <;> cases x <;> cases u <;> cases d <;> decide
  · intro hne
    rw [h2]
    obtain ⟨r, w, x, u, d⟩ := f
    revert hne
    cases r <;> cases w <;> cases x <;> cases u <;> cases d <;> decide

theorem c8_witness :
    isPresentBits (newPageBits 0x100000 .rw false) = true ∧
    memTypeBits (newPageBits 0x100000 .rw false) = 6 := by
  refine ⟨(c8_ept_encoding .rw 0x100000 false).1.mpr (Or.inl rfl), ?_⟩
  have h := (c8_ept_encoding .rw 0x100000 false).2 (by decide)
  simpa using h

/-- C10: the round trip `MappingFlags → EPTFlags → MappingFlags` is the
identity on every non-empty subset of {READ, WRITE, EXECUTE, DEVICE}, and
maps the empty flag set to the all-zero EPT flags, which decode to DEVICE
(memory-type field 0 reads back as uncached). -/
theorem c10_roundtrip :
    (∀ r w x d : Bool, (r || w || x || d) = true →
      roundTripFlags ⟨r, w, x, false, d⟩ = ⟨r, w, x, false, d⟩) ∧
    (eptFlagBits MappingFlags.empty = 0 ∧
      roundTripFlags MappingFlags.empty = ⟨false, false, false, false, true⟩) :=
  ⟨by decide, by decide, by decide⟩

theorem c10_witness :
    roundTripFlags ⟨true, false, false, false, true⟩ = ⟨true, false, false, false, true⟩ :=
  c10_roundtrip.1 true false false true (by decide)



/-- C1 counterexample: in the populated 3-page region `[0x10000, 0x13000)`,
`translate_and_get_limit(0x11000)` returns the full region size `0x3000` as
the limit, not the residual `0x2000` from `0x11000` to the region's end that
the claim requires. -/
theorem c1_counterexample :
    ((AddrSpace.newEmpty 0x10000 0x10000).map_alloc 0x10000 0x3000 .rw true
      halScenario).1 = .ok ∧
    popAspace.translateAndGetLimit 0x11000 = some (0x101000, 0x3000) ∧
    (0x10000 + 0x3000 - 0x11000 : Nat) = 0x2000 ∧ (0x3000 : Nat) ≠ 0x2000 :=
  ⟨by decide, by decide, by norm_num, by norm_num⟩

/-- C1 (amended): for every AddrSpace and every gpa strictly inside a mapped
region, `translate_and_get_limit(gpa)` returns `Some((paddr, limit))` where
`paddr` is the translated address and `limit` is the full size of the
covering region (`area.size()`). -/
theorem c1_amended (A : AddrSpace) (gpa : Nat) (area : MemoryArea)
    (pa : Nat) (f : MappingFlags) (sz : PageSize)
    (hin : A.vaContains gpa = true)
    (hfind : areasFind A.areas gpa = some area)
    (_hstrict : area.start < gpa)
    (hq : ptQuery A.pt gpa = some (pa, f, sz)) :
    A.translateAndGetLimit gpa = some (pa, area.size) := by
  unfold AddrSpace.translateAndGetLimit
  rw [hin, hfind, hq]
  rfl

theorem c1_amended_witness :
    popAspace.translateAndGetLimit 0x11000 = some (0x101000, 0x3000) :=
  c1_amended popAspace 0x11000 ⟨0x10000, 0x3000, .rw, .alloc true⟩ 0x101000
    ⟨true, true, false, false, false⟩ .size4K (by decide) (by decide)
    (by decide) (by decide)

/-- C2 (code bug): unmapping an Alloc region with an unmapped page does not
terminate. In the lazy-region scenario the page at `0x13000` was never
faulted in, so `pt.query` fails there, and the query-and-release sweep of
`unmap_alloc` never advances: for every fuel bound the loop is still
running (`none`), contradicting the claim that unmap terminates in a number
of steps bounded by the range size. -/
theorem c2_unmap_stall :
    ((AddrSpace.newEmpty 0x10000 0x10000).map_alloc 0x13000 0x1000 .rw false
      halScenario).1 = .ok ∧
    ptQuery lazyAspace.pt 0x13000 = none ∧
    ∀ fuel : Nat, unmapAllocSweep lazyAspace.pt 0x14000 fuel 0x13000 = none := by
  refine ⟨by decide, by decide, ?_⟩
  intro fuel
  induction fuel with
  | zero => rfl
  | succ n ih =>
    have hq : ptQuery lazyAspace.pt 0x13000 = none := by decide
    simp only [unmapAllocSweep, hq]
    rw [if_pos (by norm_num)]
    exact ih

/-- C9 (code bug): `translated_byte_buffer` panics instead of returning
normally when a page of the requested range is not present: on the lazy
region at `0x13000` the source's `.unwrap()` of the failed query aborts,
although the claim (and the function's own doc comment) require a normal
`Option` return. -/
theorem c9_tbb_panic :
    ((AddrSpace.newEmpty 0x10000 0x10000).map_alloc 0x13000 0x1000 .rw false
      halScenario).1 = .ok ∧
    lazyAspace.translatedByteBuffer id 0x13000 0x100 = .panicked :=
  ⟨by decide, by decide⟩

/-- C3: `handle_page_fault` returns false when the address is outside the
guest-physical range, when no region covers it, when the covering region's
flags do not contain the access flags, when the covering region is
Linear-backed, and when it is Alloc-backed with populate = true; exactly for
a lazy Alloc region passing all checks it returns what the backend's fault
handler produces. -/
theorem c3_page_fault_dispatch (A : AddrSpace) (hal : Hal) (gpa : Nat)
    (acc : MappingFlags) :
    (A.vaContains gpa = false → A.handle_page_fault gpa acc hal = (false, A, hal)) ∧
    (areasFind A.areas gpa = none → A.handle_page_fault gpa acc hal = (false, A, hal)) ∧
    (∀ area, areasFind A.areas gpa = some area → area.flags.contains acc = false →
      A.handle_page_fault gpa acc hal = (false, A, hal)) ∧
    (∀ area ofs, areasFind A.areas gpa = some area → area.backend = .linear ofs →
      (A.handle_page_fault gpa acc hal).1 = false) ∧
    (∀ area, areasFind A.areas gpa = some area → area.backend = .alloc true →
      (A.handle_page_fault gpa acc hal).1 = false) ∧
    (∀ area, A.vaContains gpa = true → areasFind A.areas gpa = some area →
      area.flags.contains acc = true → area.backend = .alloc false →
      A.handle_page_fault gpa acc hal =
        ((backendHandlePageFault area.backend gpa area.flags A.pt hal).1,
          { A with pt := (backendHandlePageFault area.backend gpa area.flags A.pt hal).2.1 },
          (backendHandlePageFault area.backend gpa area.flags A.pt hal).2.2)) := by
  refine ⟨?_, ?_, ?_, ?_, ?_, ?_⟩
  · intro h
    simp [AddrSpace.handle_page_fault, h]
  · intro h
    by_cases hv : A.vaContains gpa <;>
      simp [AddrSpace.handle_page_fault, h, hv]
  · intro area hfind hcont
    by_cases hv : A.vaContains gpa <;>
      simp [AddrSpace.handle_page_fault, hfind, hcont, hv]
  · intro area ofs hfind hbk
    by_cases hv : A.vaContains gpa
    · by_cases hcont : area.flags.contains acc <;>
        simp [AddrSpace.handle_page_fault, hfind, hbk, hv, hcont,
          backendHandlePageFault]
    · simp [AddrSpace.handle_page_fault, hv]
  · intro area hfind hbk
    by_cases hv : A.vaContains gpa
    · by_cases hcont : area.flags.contains acc <;>
        simp [AddrSpace.handle_page_fault, hfind, hbk, hv, hcont,
          backendHandlePageFault, backendHandlePageFaultAlloc]
    · simp [AddrSpace.handle_page_fault, hv]
  · intro area hv hfind hcont hbk
    simp [AddrSpace.handle_page_fault, hfind, hv, hcont]

theorem c3_witness :
    lazyAspace.handle_page_fault 0x9000 .rw [] = (false, lazyAspace, []) :=
  (c3_page_fault_dispatch lazyAspace [] 0x9000 .rw).1 (by decide)

/-- C5: whenever the requested range is not contained in the address space's
guest-physical range, or the start or size is not 4 KiB-aligned, each of
`map_linear`, `map_alloc` and `unmap` returns `InvalidInput` and leaves the
address space (memory set and page table) unchanged. -/
theorem c5_validation (A : AddrSpace) (hal : Hal) (sv sp size fuel : Nat)
    (fl : MappingFlags) (populate : Bool)
    (h : A.containsRange sv size = false ∨ isAligned4K sv = false ∨
      isAligned4K size = false) :
    A.map_linear sv sp size fl hal = (.err .invalidInput, A, hal) ∧
    A.map_alloc sv size fl populate hal = (.err .invalidInput, A, hal) ∧
    A.unmap sv size fuel = some (.err .invalidInput, A) := by
  by_cases hc : A.containsRange sv size
  · obtain h | h | h := h
    · rw [hc] at h
      exact absurd h (by simp)
    all_goals
      refine ⟨?_, ?_, ?_⟩ <;>
        simp [AddrSpace.map_linear, AddrSpace.map_alloc, AddrSpace.unmap, hc, h]
  · refine ⟨?_, ?_, ?_⟩ <;>
      simp [AddrSpace.map_linear, AddrSpace.map_alloc, AddrSpace.unmap, hc]

theorem c5_witness :
    (AddrSpace.newEmpty 0x10000 0x10000).map_linear 0x9000 0 0x1000 .rw [] =
      (.err .invalidInput, AddrSpace.newEmpty 0x10000 0x10000, []) :=
  (c5_validation (AddrSpace.newEmpty 0x10000 0x10000) [] 0x9000 0 0x1000 0 .rw
    true (Or.inl (by decide))).1



theorem readBufLoop_ne_fuelOut (T : Nat → Option (Nat × Nat)) (mem : Nat → Nat)
    (hpos : ∀ a pa l, T a = some (pa, l) → 0 < l) :
    ∀ fuel rem addr acc, rem ≤ fuel →
      readBufLoop T mem fuel addr rem acc ≠ .fuelOut := by
  intro fuel
  induction fuel with
  | zero =>
    intro rem addr acc hle
    have h0 : rem = 0 := by omega
    subst h0
    simp [readBufLoop]
  | succ n ih =>
    intro rem addr acc hle
    by_cases h0 : rem = 0
    · subst h0
      simp [readBufLoop]
    · rw [readBufLoop]
      simp only [h0, if_false]
      cases hT : T addr with
      | none => simp
      | some v =>
        obtain ⟨pa, lim⟩ := v
        have hlim : 0 < lim := hpos addr pa lim hT
        exact ih _ _ _ (by omega)

theorem writeBufLoop_ne_fuelOut (T : Nat → Option (Nat × Nat))
    (hpos : ∀ a pa l, T a = some (pa, l) → 0 < l) :
    ∀ fuel (buf : List Nat) addr mem, buf.length ≤ fuel →
      writeBufLoop T fuel addr buf mem ≠ .fuelOut := by
  intro fuel
  induction fuel with
  | zero =>
    intro buf addr mem hle
    have h0 : buf = [] := by
      cases buf with
      | nil => rfl
      | cons a l => simp at hle
    subst h0
    simp [writeBufLoop]
  | succ n ih =>
    intro buf addr mem hle
    by_cases h0 : buf.isEmpty
    · rw [writeBufLoop]
      simp [h0]
    · rw [writeBufLoop]
      simp only [h0, if_false]
      cases hT : T addr with
      | none => simp
      | some v =>
        obtain ⟨pa, lim⟩ := v
        have hlim : 0 < lim := hpos addr pa lim hT
        have hlen : 0 < buf.length := by
          cases buf with
          | nil => simp at h0
          | cons a l => simp
        refine ih _ _ _ ?_
        rw [List.length_drop]
        omega

/-- C7: for every translator whose limits are strictly positive, `read_buffer`
and `write_buffer` succeed immediately on an empty buffer; for non-empty
buffers the copy loop terminates within buffer-length iterations (the fuel
equal to the buffer length is never exhausted); and each iteration copies
`min(remaining, limit)` bytes and advances the guest address and the buffer
cursor by that amount. -/
theorem c7_buffer_termination (T : Nat → Option (Nat × Nat)) (mem : Nat → Nat)
    (hpos : ∀ a pa l, T a = some (pa, l) → 0 < l) :
    (∀ addr, read_buffer T mem addr 0 = .ok [] ∧
      write_buffer T mem addr [] = .ok mem) ∧
    (∀ addr n, read_buffer T mem addr n ≠ .fuelOut) ∧
    (∀ addr buf, write_buffer T mem addr buf ≠ .fuelOut) ∧
    (∀ fuel addr rem acc pa lim, rem ≠ 0 → T addr = some (pa, lim) →
      readBufLoop T mem (fuel + 1) addr rem acc =
        readBufLoop T mem fuel (addr + min rem lim) (rem - min rem lim)
          (acc ++ readChunk mem pa (min rem lim))) ∧
    (∀ fuel addr (buf : List Nat) m pa lim, buf ≠ [] → T addr = some (pa, lim) →
      writeBufLoop T (fuel + 1) addr buf m =
        writeBufLoop T fuel (addr + min buf.length lim)
          (buf.drop (min buf.length lim))
          (writeChunk m pa (buf.take (min buf.length lim)))) := by
  refine ⟨?_, ?_, ?_, ?_, ?_⟩
  · intro addr
    constructor
    · simp [read_buffer]
    · simp [write_buffer]
  · intro addr n
    unfold read_buffer
    by_cases h0 : n = 0
    · simp [h0]
    · simp only [h0, if_false]
      cases hT : T addr with
      | none => simp
      | some v =>
        obtain ⟨pa, lim⟩ := v
        by_cases hfit : n ≤ lim
        · simp [hfit]
        · simp only [hfit, if_false]
          exact readBufLoop_ne_fuelOut T mem hpos n n addr [] (Nat.le_refl n)
  · intro addr buf
    unfold write_buffer
    by_cases h0 : buf.isEmpty
    · simp [h0]
    · simp only [h0, if_false]
      cases hT : T addr with
      | none => simp
      | some v =>
        obtain ⟨pa, lim⟩ := v
        by_cases hfit : buf.length ≤ lim
        · simp [hfit]
        · simp only [hfit, if_false]
          exact writeBufLoop_ne_fuelOut T hpos buf.length buf addr mem (Nat.le_refl _)
  · intro fuel addr rem acc pa lim h0 hT
    rw [readBufLoop]
    simp [h0, hT]
  · intro fuel addr buf m pa lim h0 hT
    rw [writeBufLoop]
    have h0' : buf.isEmpty = false := by
      cases buf with
      | nil => simp at h0
      | cons a l => rfl
    simp [h0', hT]

theorem c7_witness :
    read_buffer transStub (fun _ => 0) 0 5 ≠ .fuelOut ∧
    write_buffer transStub (fun _ => 0) 0 [1, 2, 3] ≠ .fuelOut ∧
    read_buffer transStub (fun _ => 0) 0 0 = .ok [] :=
  have hpos : ∀ a pa l, transStub a = some (pa, l) → 0 < l := by
    intro a pa l h
    simp [transStub] at h
    omega
  ⟨(c7_buffer_termination transStub (fun _ => 0) hpos).2.1 0 5,
    (c7_buffer_termination transStub (fun _ => 0) hpos).2.2.1 0 [1, 2, 3],
    ((c7_buffer_termination transStub (fun _ => 0) hpos).1 0).1⟩



theorem alignDown_mod (a n : Nat) : alignDown a n % n = 0 := by
  unfold alignDown
  have h := Nat.div_add_mod a n
  have h2 : a - a % n = n * (a / n) := by omega
  rw [h2]
  exact Nat.mul_mod_right n (a / n)

theorem alignDown_of_mod (a n : Nat) (h : a % n = 0) : alignDown a n = a := by
  unfold alignDown
  omega

theorem alignDown_eq_of_near (s gpa : Nat) (hs : s % 4096 = 0) (h1 : s ≤ gpa)
    (h2 : gpa < s + 4096) : alignDown gpa 4096 = s := by
  unfold alignDown
  omega

theorem bytes_facts (ps : PageSize) : ps.bytes % 4096 = 0 ∧ 4096 ≤ ps.bytes := by
  cases ps <;> exact ⟨by decide, by decide⟩

theorem base_mod_4096 (e : PTE) (he : e.base % e.pgsz.bytes = 0) :
    e.base % 4096 = 0 := by
  have hd : (4096 : Nat) ∣ e.pgsz.bytes := by
    cases e.pgsz <;> norm_num [PageSize.bytes]
  rw [← Nat.mod_mod_of_dvd e.base hd, he, Nat.zero_mod]

theorem covers_page (e : PTE) (he : e.base % e.pgsz.bytes = 0) (s gpa : Nat)
    (hs : s % 4096 = 0) (h1 : s ≤ gpa) (h2 : gpa < s + 4096)
    (hc : e.covers gpa = true) : e.covers s = true := by
  have hb := base_mod_4096 e he
  have hB := bytes_facts e.pgsz
  simp only [PTE.covers, decide_eq_true_eq] at hc ⊢
  omega

theorem notCovers_disjoint (x : PTE) (b : Nat) (hx : x.base % x.pgsz.bytes = 0)
    (hb : b % 4096 = 0) (hnc : x.covers b = false) :
    b + 4096 ≤ x.base ∨ x.base + x.pgsz.bytes ≤ b := by
  have hd := base_mod_4096 x hx
  have hB := bytes_facts x.pgsz
  simp only [PTE.covers, decide_eq_false_iff_not, not_and, not_lt] at hnc
  omega

theorem ptMapEntry_shape (pt pt' : PageTable) (va pa : Nat) (ps : PageSize)
    (fl : MappingFlags) (h : ptMapEntry pt va pa ps fl = some pt') :
    pt' = ⟨alignDown va ps.bytes, ps, alignDown pa ps.bytes, fl⟩ ::
      pt.filter (fun x => !(x.covers (alignDown va ps.bytes))) := by
  unfold ptMapEntry at h
  cases hf : ptFind pt (alignDown va ps.bytes) with
  | some e =>
    rw [hf] at h
    by_cases hz : e.entryBits = 0
    · simp only [hz, if_true] at h
      exact (Option.some_inj.mp h).symm
    · simp [hz] at h
  | none =>
    rw [hf] at h
    simp only [Option.some_inj] at h
    have hfe : ∀ x ∈ pt, x.covers (alignDown va ps.bytes) = false := by
      intro x hx
      have := List.find?_eq_none.mp hf x hx
      simpa using this
    rw [← h]
    congr 1
    exact (List.filter_eq_self.mpr (fun x hx => by simp [hfe x hx])).symm

theorem ptMapEntry_wf (pt pt' : PageTable) (va pa : Nat) (ps : PageSize)
    (fl : MappingFlags) (hwf : ptWF pt)
    (h : ptMapEntry pt va pa ps fl = some pt') : ptWF pt' := by
  rw [ptMapEntry_shape pt pt' va pa ps fl h]
  intro e he
  cases he with
  | head => exact alignDown_mod va ps.bytes
  | tail _ htail => exact hwf e (List.mem_of_mem_filter htail)

theorem ptMapEntry_disjoint (pt pt' : PageTable) (va pa : Nat)
    (fl : MappingFlags) (hwf : ptWF pt) (hdis : ptDisjoint pt)
    (h : ptMapEntry pt va pa .size4K fl = some pt') : ptDisjoint pt' := by
  rw [ptMapEntry_shape pt pt' va pa .size4K fl h]
  constructor
  · intro x hx
    have hxpt := List.mem_of_mem_filter hx
    have hxnc : x.covers (alignDown va PageSize.size4K.bytes) = false := by
      have := List.of_mem_filter hx
      simpa using this
    have hnd := notCovers_disjoint x (alignDown va PageSize.size4K.bytes)
      (hwf x hxpt) (alignDown_mod va _) hxnc
    simp only [PageSize.bytes]
    simp only [PageSize.bytes] at hnd
    omega
  · exact List.Pairwise.sublist (List.filter_sublist pt) hdis

theorem mapRegion4K_wf_dis : ∀ (n : Nat) (pt pt' : PageTable) (s : Nat)
    (pfn : Nat → Nat) (fl : MappingFlags), ptWF pt → ptDisjoint pt →
    mapRegion4K pt s n pfn fl = (true, pt') → ptWF pt' ∧ ptDisjoint pt' := by
  intro n
  induction n with
  | zero =>
    intro pt pt' s pfn fl hwf hdis hrun
    simp only [mapRegion4K, Prod.mk.injEq] at hrun
    rw [← hrun.2]
    exact ⟨hwf, hdis⟩
  | succ m ih =>
    intro pt pt' s pfn fl hwf hdis hrun
    simp only [mapRegion4K] at hrun
    cases hme : ptMapEntry pt s (pfn s) .size4K fl with
    | none => rw [hme] at hrun; simp at hrun
    | some pt1 =>
      rw [hme] at hrun
      exact ih pt1 pt' (s + 4096) pfn fl (ptMapEntry_wf _ _ _ _ _ _ hwf hme)
        (ptMapEntry_disjoint _ _ _ _ _ hwf hdis hme) hrun

theorem mapRegion4K_mem : ∀ (n : Nat) (pt pt' : PageTable) (s : Nat)
    (pfn : Nat → Nat) (fl : MappingFlags),
    mapRegion4K pt s n pfn fl = (true, pt') →
    ∀ e ∈ pt', e ∈ pt ∨ (e.pgsz = .size4K ∧ e.flags = fl ∧
      ∃ p, e.paddr = alignDown (pfn p) 4096) := by
  intro n
  induction n with
  | zero =>
    intro pt pt' s pfn fl hrun e he
    simp only [mapRegion4K, Prod.mk.injEq] at hrun
    rw [← hrun.2] at he
    exact Or.inl he
  | succ m ih =>
    intro pt pt' s pfn fl hrun e he
    simp only [mapRegion4K] at hrun
    cases hme : ptMapEntry pt s (pfn s) .size4K fl with
    | none => rw [hme] at hrun; simp at hrun
    | some pt1 =>
      rw [hme] at hrun
      cases ih pt1 pt' (s + 4096) pfn fl hrun e he with
      | inr h => exact Or.inr h
      | inl h1 =>
        rw [ptMapEntry_shape pt pt1 s (pfn s) .size4K fl hme] at h1
        cases h1 with
        | head => exact Or.inr ⟨rfl, rfl, s, rfl⟩
        | tail _ htail => exact Or.inl (List.mem_of_mem_filter htail)


theorem find?_filter_of_find? {α : Type} (l : List α) (p q : α → Bool) (a : α)
    (h : l.find? p = some a) (hq : q a = true) :
    (l.filter q).find? p = some a := by
  induction l with
  | nil => simp at h
  | cons b l ih =>
    by_cases hpb : p b
    · rw [List.find?_cons_of_pos l hpb] at h
      have hab : b = a := by simpa using h
      subst hab
      rw [List.filter_cons_of_pos hq, List.find?_cons_of_pos _ hpb]
    · rw [List.find?_cons_of_neg l hpb] at h
      by_cases hqb : q b
      · rw [List.filter_cons_of_pos hqb, List.find?_cons_of_neg _ hpb]
        exact ih h
      · rw [List.filter_cons_of_neg (by simpa using hqb)]
        exact ih h

theorem newPageBits_zero : newPageBits 0 MappingFlags.empty false = 0 := by decide

theorem eptRwx_ne (fl : MappingFlags)
    (h : fl.read = true ∨ fl.write = true ∨ fl.execute = true) :
    eptFlagBits fl &&& 7 ≠ 0 := by
  obtain ⟨r, w, x, u, d⟩ := fl
  revert h
  cases r <;> cases w <;> cases x <;> cases u <;> cases d <;> decide

theorem newPageBits_ne_zero (pa : Nat) (fl : MappingFlags) (hg : Bool)
    (h : eptFlagBits fl &&& 7 ≠ 0) : newPageBits pa fl hg ≠ 0 := by
  intro h0
  have h1 := newPageAnd7 pa fl hg
  rw [h0] at h1
  simp at h1
  exact h h1.symm

theorem and_mask_eq_self (pa : Nat) (hpa : pa % 4096 = 0) (hlt : pa < 2 ^ 52) :
    pa &&& EPT_PHYS_ADDR_MASK = pa := by
  have hk : pa = (pa / 4096) <<< 12 := by
    rw [Nat.shiftLeft_eq]
    norm_num
    omega
  have hM : EPT_PHYS_ADDR_MASK = (2 ^ 40 - 1) <<< 12 := by decide
  rw [hk, hM, ← shiftLeftAndDistrib]
  congr 1
  have h := Nat.and_pow_two_sub_one_eq_mod (pa / 4096) 40
  rw [h]
  apply Nat.mod_eq_of_lt
  omega

theorem newPageBits_mask (pa : Nat) (fl : MappingFlags) (hg : Bool)
    (hpa : pa % 4096 = 0) (hlt : pa < 2 ^ 52) :
    newPageBits pa fl hg &&& EPT_PHYS_ADDR_MASK = pa := by
  unfold newPageBits
  rw [natOrAndDistrib, natOrAndDistrib]
  have hF : eptFlagBits fl &&& EPT_PHYS_ADDR_MASK = 0 := by
    obtain ⟨r, w, x, u, d⟩ := fl
    cases r <;> cases w <;> cases x <;> cases u <;> cases d <;> decide
  have hH : (if hg then 128 else 0) &&& EPT_PHYS_ADDR_MASK = 0 := by
    cases hg <;> decide
  rw [hF, hH, Nat.and_assoc, Nat.and_self]
  simp only [Nat.zero_or]
  exact and_mask_eq_self pa hpa hlt

theorem newPageBits_ne_zero_of_paddr (pa : Nat) (fl : MappingFlags) (hg : Bool)
    (hpa : pa % 4096 = 0) (h0 : 0 < pa) (hlt : pa < 2 ^ 52) :
    newPageBits pa fl hg ≠ 0 := by
  intro hz
  have h1 := newPageBits_mask pa fl hg hpa hlt
  rw [hz] at h1
  simp at h1
  omega

theorem ptQuery_cons_of_not_covers (e : PTE) (pt : PageTable) (va : Nat)
    (h : e.covers va = false) : ptQuery (e :: pt) va = ptQuery pt va := by
  unfold ptQuery ptFind
  rw [List.find?_cons_of_neg _ (by simp [h])]

theorem mapRegionLazy_cover_zero : ∀ (n : Nat) (pt pt' : PageTable) (s gpa : Nat),
    ptWF pt → s % 4096 = 0 →
    mapRegion4K pt s n (fun _ => 0) MappingFlags.empty = (true, pt') →
    s ≤ gpa → gpa < s + 4096 * n →
    ∀ e ∈ pt', e.covers gpa = true → e.entryBits = 0 := by
  intro n
  induction n with
  | zero =>
    intro pt pt' s gpa hwf hs hrun h1 h2
    omega
  | succ m ih =>
    intro pt pt' s gpa hwf hs hrun h1 h2 e he hc
    simp only [mapRegion4K] at hrun
    cases hme : ptMapEntry pt s 0 .size4K MappingFlags.empty with
    | none => rw [hme] at hrun; simp at hrun
    | some pt1 =>
      rw [hme] at hrun
      have hwf1 : ptWF pt1 := ptMapEntry_wf _ _ _ _ _ _ hwf hme
      have hshape := ptMapEntry_shape pt pt1 s 0 .size4K MappingFlags.empty hme
      have hsal : alignDown s PageSize.size4K.bytes = s :=
        alignDown_of_mod s _ hs
      by_cases hfirst : gpa < s + 4096
      · -- gpa is in the page mapped by this step
        cases mapRegion4K_mem m pt1 pt' (s + 4096) _ _ hrun e he with
        | inr hnew =>
          obtain ⟨hp, hf, p, hpa⟩ := hnew
          have : e.entryBits = newPageBits e.paddr e.flags e.pgsz.isHuge := rfl
          rw [this, hpa, hf, hp]
          simp only [alignDown, Nat.zero_mod, Nat.zero_sub]
          exact newPageBits_zero
        | inl h1mem =>
          rw [hshape] at h1mem
          cases h1mem with
          | head =>
            show PTE.entryBits ⟨alignDown s PageSize.size4K.bytes, .size4K,
              alignDown 0 PageSize.size4K.bytes, MappingFlags.empty⟩ = 0
            exact newPageBits_zero
          | tail _ htail =>
            have hmem := List.mem_of_mem_filter htail
            have hnc : e.covers (alignDown s PageSize.size4K.bytes) = false := by
              have := List.of_mem_filter htail
              simpa using this
            rw [hsal] at hnc
            have := covers_page e (hwf e hmem) s gpa hs h1 hfirst hc
            rw [this] at hnc
            exact absurd hnc (by simp)
      · exact ih pt1 pt' (s + 4096) gpa hwf1 (by omega) hrun (by omega)
          (by omega) e he hc

theorem mapRegionLazy_query_none (n : Nat) (pt pt' : PageTable) (s gpa : Nat)
    (hwf : ptWF pt) (hs : s % 4096 = 0)
    (hrun : mapRegion4K pt s n (fun _ => 0) MappingFlags.empty = (true, pt'))
    (h1 : s ≤ gpa) (h2 : gpa < s + 4096 * n) :
    ptQuery pt' gpa = none := by
  unfold ptQuery
  cases hf : ptFind pt' gpa with
  | none => rfl
  | some e =>
    have hc := List.find?_some hf
    have hmem := List.mem_of_find?_eq_some hf
    have hz := mapRegionLazy_cover_zero n pt pt' s gpa hwf hs hrun h1 h2 e hmem hc
    simp [hz]



theorem isAligned4K_mod (a : Nat) (h : isAligned4K a = true) : a % 4096 = 0 := by
  simpa [isAligned4K] using h

theorem mapRegion4K_find_stable : ∀ (n : Nat) (pt pt' : PageTable) (s gpa : Nat)
    (pfn : Nat → Nat) (fl : MappingFlags) (e : PTE),
    ptWF pt → s % 4096 = 0 → gpa < s →
    mapRegion4K pt s n pfn fl = (true, pt') →
    ptFind pt gpa = some e → e.pgsz = .size4K →
    ptFind pt' gpa = some e := by
  intro n
  induction n with
  | zero =>
    intro pt pt' s gpa pfn fl e hwf hs hlt hrun hfind hsz
    simp only [mapRegion4K, Prod.mk.injEq] at hrun
    rw [← hrun.2]
    exact hfind
  | succ m ih =>
    intro pt pt' s gpa pfn fl e hwf hs hlt hrun hfind hsz
    simp only [mapRegion4K] at hrun
    cases hme : ptMapEntry pt s (pfn s) .size4K fl with
    | none => rw [hme] at hrun; simp at hrun
    | some pt1 =>
      rw [hme] at hrun
      have hwf1 : ptWF pt1 := ptMapEntry_wf _ _ _ _ _ _ hwf hme
      have hshape := ptMapEntry_shape pt pt1 s (pfn s) .size4K fl hme
      have hsal : alignDown s 4096 = s := alignDown_of_mod s 4096 hs
      have hcv := List.find?_some hfind
      have hmem := List.mem_of_find?_eq_some hfind
      have hbase := hwf e hmem
      rw [hsz] at hbase
      simp only [PageSize.bytes] at hbase
      simp only [PTE.covers, hsz, PageSize.bytes, decide_eq_true_eq] at hcv
      have hnc : e.covers s = false := by
        simp only [PTE.covers, hsz, PageSize.bytes, decide_eq_false_iff_not,
          not_and, not_lt]
        intro hle
        omega
      have hfind1 : ptFind pt1 gpa = some e := by
        rw [hshape]
        unfold ptFind
        rw [List.find?_cons_of_neg]
        · simp only [PageSize.bytes, hsal]
          exact find?_filter_of_find? pt _ _ e hfind (by simp [hnc, PageSize.bytes, hsal])
        · simp only [PTE.covers, PageSize.bytes, hsal, decide_eq_true_eq]
          omega
      exact ih pt1 pt' (s + 4096) gpa pfn fl e hwf1 (by omega) (by omega) hrun
        hfind1 hsz

theorem ptQuery_cons_of_covers (e : PTE) (pt : PageTable) (va : Nat)
    (h : e.covers va = true) :
    ptQuery (e :: pt) va = if e.entryBits = 0 then none
      else some ((e.entryBits &&& EPT_PHYS_ADDR_MASK) + va % e.pgsz.bytes,
        eptToMapping e.entryBits, e.pgsz) := by
  unfold ptQuery ptFind
  rw [List.find?_cons_of_pos _ (by exact h)]

theorem ptRemap_query : ∀ (pt pt' : PageTable) (va pa : Nat)
    (fl : MappingFlags) (sz : PageSize),
    ptRemap pt va pa fl = some (pt', sz) →
    pa % 4096 = 0 → 0 < pa → pa < 2 ^ 52 →
    (ptQuery pt' va).isSome = true := by
  intro pt
  induction pt with
  | nil =>
    intro pt' va pa fl sz h
    simp [ptRemap] at h
  | cons e rest ih =>
    intro pt' va pa fl sz h hpa h0 hlt
    rw [ptRemap] at h
    by_cases hc : e.covers va = true
    · rw [if_pos hc] at h
      simp only [Option.some_inj, Prod.mk.injEq] at h
      obtain ⟨hpt, hsz⟩ := h
      subst hpt
      have hz : PTE.entryBits ⟨e.base, e.pgsz, pa, fl⟩ ≠ 0 :=
        newPageBits_ne_zero_of_paddr pa fl _ hpa h0 hlt
      rw [ptQuery_cons_of_covers ⟨e.base, e.pgsz, pa, fl⟩ rest va hc]
      simp [hz]
    · rw [if_neg hc] at h
      cases hr : ptRemap rest va pa fl with
      | none => rw [hr] at h; simp at h
      | some v =>
        obtain ⟨pt1, sz1⟩ := v
        rw [hr] at h
        simp only [Option.some_inj, Prod.mk.injEq] at h
        obtain ⟨hpt, hsz⟩ := h
        subst hpt
        rw [ptQuery_cons_of_not_covers e pt1 va (by simpa using hc)]
        exact ih pt1 va pa fl sz1 hr hpa h0 hlt

theorem wsub_sub (sv sp a : Nat) (h1 : sv ≤ a) (h3 : sp < USIZE)
    (h4 : sp + (a - sv) < USIZE) : wsub a (wsub sv sp) = sp + (a - sv) := by
  unfold wsub USIZE
  unfold USIZE at h3 h4
  omega

theorem map_alloc_ok_elim (A A' : AddrSpace) (hal hal' : Hal) (start size : Nat)
    (fl : MappingFlags) (populate : Bool)
    (h : A.map_alloc start size fl populate hal = (.ok, A', hal')) :
    A.containsRange start size = true ∧ isAligned4K start = true ∧
    isAligned4K size = true ∧ size ≠ 0 ∧
    A'.base = A.base ∧ A'.asize = A.asize ∧
    A'.areas = ⟨start, size, fl, .alloc populate⟩ :: A.areas ∧
    backendMap (.alloc populate) start size fl A.pt hal = (true, A'.pt, hal') := by
  unfold AddrSpace.map_alloc at h
  cases hcr : A.containsRange start size with
  | false => simp [hcr] at h
  | true =>
    cases ha1 : isAligned4K start with
    | false => simp [hcr, ha1] at h
    | true =>
      cases ha2 : isAligned4K size with
      | false => simp [hcr, ha1, ha2] at h
      | true =>
        simp only [hcr, ha1, ha2, Bool.and_self, Bool.not_true, Bool.false_eq_true,
          if_false, Bool.and_true, Bool.true_and] at h
        unfold msMap at h
        by_cases hsz : size = 0
        · simp [hsz] at h
        · simp only [hsz, if_false] at h
          cases hov : A.areas.any (fun b =>
            areasOverlap b ⟨start, size, fl, .alloc populate⟩) with
          | true => simp [hov] at h
          | false =>
            simp only [hov, Bool.false_eq_true, if_false] at h
            cases hbm : backendMap (.alloc populate) start size fl A.pt hal with
            | mk ok rest =>
              obtain ⟨pt2, hal2⟩ := rest
              rw [hbm] at h
              cases ok with
              | false => simp at h
              | true =>
                simp only [Prod.mk.injEq] at h
                obtain ⟨-, hA, hh⟩ := h
                subst hA
                subst hh
                exact ⟨rfl, rfl, rfl, hsz, rfl, rfl, rfl, rfl⟩

theorem map_linear_ok_elim (A A' : AddrSpace) (hal hal' : Hal) (sv sp size : Nat)
    (fl : MappingFlags)
    (h : A.map_linear sv sp size fl hal = (.ok, A', hal')) :
    A.containsRange sv size = true ∧ isAligned4K sv = true ∧
    isAligned4K sp = true ∧ isAligned4K size = true ∧ size ≠ 0 ∧
    A'.base = A.base ∧ A'.asize = A.asize ∧ hal' = hal ∧
    mapRegion4K A.pt sv (size / 4096) (fun va => wsub va (wsub sv sp)) fl =
      (true, A'.pt) := by
  unfold AddrSpace.map_linear at h
  cases hcr : A.containsRange sv size with
  | false => simp [hcr] at h
  | true =>
    cases ha1 : isAligned4K sv with
    | false => simp [hcr, ha1] at h
    | true =>
      cases ha2 : isAligned4K sp with
      | false => simp [hcr, ha1, ha2] at h
      | true =>
        cases ha3 : isAligned4K size with
        | false => simp [hcr, ha1, ha2, ha3] at h
        | true =>
          simp only [hcr, ha1, ha2, ha3, Bool.and_self, Bool.not_true,
            Bool.false_eq_true, if_false, Bool.and_true, Bool.true_and] at h
          unfold msMap at h
          by_cases hsz : size = 0
          · simp [hsz] at h
          · simp only [hsz, if_false] at h
            cases hov : A.areas.any (fun b =>
              areasOverlap b ⟨sv, size, fl, .linear (wsub sv sp)⟩) with
            | true => simp [hov] at h
            | false =>
              simp only [hov, Bool.false_eq_true, if_false] at h
              unfold backendMap backendMapLinear at h
              simp only [ha1, ha3, Bool.and_self, if_true] at h
              cases hmr : mapRegion4K A.pt sv (size / 4096)
                (fun va => wsub va (wsub sv sp)) fl with
              | mk ok pt2 =>
                rw [hmr] at h
                cases ok with
                | false => simp at h
                | true =>
                  simp only [Prod.mk.injEq] at h
                  obtain ⟨-, hA, hh⟩ := h
                  subst hA
                  subst hh
                  exact ⟨rfl, rfl, rfl, rfl, hsz, rfl, rfl, rfl, rfl⟩



theorem mapRegionLinear_query : ∀ (n : Nat) (pt pt' : PageTable) (s gpa : Nat)
    (pfn : Nat → Nat) (fl : MappingFlags),
    ptWF pt → s % 4096 = 0 →
    mapRegion4K pt s n pfn fl = (true, pt') →
    s ≤ gpa → gpa < s + 4096 * n →
    (fl.read = true ∨ fl.write = true ∨ fl.execute = true) →
    pfn (alignDown gpa 4096) % 4096 = 0 → pfn (alignDown gpa 4096) < 2 ^ 52 →
    ptQuery pt' gpa = some (pfn (alignDown gpa 4096) + gpa % 4096,
      eptToMapping (newPageBits (pfn (alignDown gpa 4096)) fl false),
      .size4K) := by
  intro n
  induction n with
  | zero =>
    intro pt pt' s gpa pfn fl hwf hs hrun h1 h2
    omega
  | succ m ih =>
    intro pt pt' s gpa pfn fl hwf hs hrun h1 h2 hrwx hpm hpl
    simp only [mapRegion4K] at hrun
    cases hme : ptMapEntry pt s (pfn s) .size4K fl with
    | none => rw [hme] at hrun; simp at hrun
    | some pt1 =>
      rw [hme] at hrun
      have hwf1 : ptWF pt1 := ptMapEntry_wf _ _ _ _ _ _ hwf hme
      by_cases hfirst : gpa < s + 4096
      · have hp : alignDown gpa 4096 = s := alignDown_eq_of_near s gpa hs h1 hfirst
        rw [hp] at hpm hpl
        have hshape := ptMapEntry_shape pt pt1 s (pfn s) .size4K fl hme
        have hsal : alignDown s 4096 = s := alignDown_of_mod s 4096 hs
        have hpal : alignDown (pfn s) 4096 = pfn s := alignDown_of_mod _ 4096 hpm
        have he : (⟨alignDown s PageSize.size4K.bytes, .size4K,
            alignDown (pfn s) PageSize.size4K.bytes, fl⟩ : PTE) =
            ⟨s, .size4K, pfn s, fl⟩ := by
          simp only [PageSize.bytes, hsal, hpal]
        rw [he] at hshape
        have hfind1 : ptFind pt1 gpa = some ⟨s, .size4K, pfn s, fl⟩ := by
          rw [hshape]
          unfold ptFind
          rw [List.find?_cons_of_pos _ (by
            simp only [PTE.covers, PageSize.bytes, decide_eq_true_eq]
            omega)]
        have hfind' : ptFind pt' gpa = some ⟨s, .size4K, pfn s, fl⟩ :=
          mapRegion4K_find_stable m pt1 pt' (s + 4096) gpa pfn fl _ hwf1
            (by omega) (by omega) hrun hfind1 rfl
        unfold ptQuery
        rw [hfind']
        have hbits : PTE.entryBits ⟨s, .size4K, pfn s, fl⟩ =
            newPageBits (pfn s) fl false := rfl
        have hz : newPageBits (pfn s) fl false ≠ 0 :=
          newPageBits_ne_zero (pfn s) fl false (eptRwx_ne fl hrwx)
        simp only [hbits, hz, if_false, PageSize.bytes]
        rw [newPageBits_mask (pfn s) fl false hpm hpl]
        rw [hp]
      · exact ih pt1 pt' (s + 4096) gpa pfn fl hwf1 (by omega) hrun (by omega)
          (by omega) hrwx hpm hpl

theorem hpf_true_translate (A A'' : AddrSpace) (hal hal'' : Hal) (gpa : Nat)
    (f : MappingFlags) (hhal : halWF hal)
    (h : A.handle_page_fault gpa f hal = (true, A'', hal'')) :
    ∃ pa, A''.translate gpa = some pa := by
  unfold AddrSpace.handle_page_fault at h
  cases hv : A.vaContains gpa with
  | false => simp [hv] at h
  | true =>
    simp only [hv, Bool.not_true, Bool.false_eq_true, if_false] at h
    cases hfind : areasFind A.areas gpa with
    | none => rw [hfind] at h; simp at h
    | some area =>
      rw [hfind] at h
      cases hcont : area.flags.contains f with
      | false => simp [hcont] at h
      | true =>
        simp only [hcont, Bool.not_true, Bool.false_eq_true, if_false] at h
        cases hbk : area.backend with
        | linear ofs =>
          rw [hbk] at h
          simp [backendHandlePageFault] at h
        | alloc populate =>
          rw [hbk] at h
          unfold backendHandlePageFault backendHandlePageFaultAlloc at h
          cases populate with
          | true => simp at h
          | false =>
            simp only [Bool.false_eq_true, if_false] at h
            cases hal with
            | nil => simp [allocFrame] at h
            | cons frame rest =>
              simp only [allocFrame] at h
              have hfr := hhal frame (List.mem_cons_self frame rest)
              cases hrm : ptRemap A.pt gpa frame area.flags with
              | none => rw [hrm] at h; simp at h
              | some v =>
                obtain ⟨pt1, sz1⟩ := v
                rw [hrm] at h
                simp only [Prod.mk.injEq] at h
                obtain ⟨-, hA, -⟩ := h
                subst hA
                have hq := ptRemap_query A.pt pt1 gpa frame area.flags sz1 hrm
                  hfr.1 hfr.2.1 hfr.2.2
                unfold AddrSpace.translate
                simp only [AddrSpace.vaContains] at hv ⊢
                simp only [hv, Bool.not_true, Bool.false_eq_true, if_false]
                cases hqq : ptQuery pt1 gpa with
                | none => rw [hqq] at hq; simp at hq
                | some r => exact ⟨r.1, by simp⟩



/-- C4: after a successful `map_alloc(start, size, flags, populate = false)`,
`translate(gpa)` is `None` for every 4 KiB-aligned gpa inside the region; and
whenever a subsequent `handle_page_fault(gpa, f)` with `f` contained in the
region's flags returns true (with a well-formed allocator), `translate(gpa)`
returns `Some`. The page-table well-formedness hypothesis `ptWF` encodes the
radix-tree structural invariant of the modelled engine. -/
theorem c4_lazy_alloc (A A' : AddrSpace) (hal hal' : Hal)
    (start size gpa : Nat) (fl : MappingFlags)
    (hwf : ptWF A.pt)
    (hrun : A.map_alloc start size fl false hal = (.ok, A', hal'))
    (_hga : isAligned4K gpa = true)
    (hg1 : start ≤ gpa) (hg2 : gpa < start + size) :
    A'.translate gpa = none ∧
    (∀ (A'' : AddrSpace) (hal2 hal'' : Hal) (f : MappingFlags), halWF hal2 →
      fl.contains f = true →
      A'.handle_page_fault gpa f hal2 = (true, A'', hal'') →
      ∃ pa, A''.translate gpa = some pa) := by
  obtain ⟨hcr, ha1, ha2, hsz, hb, has, -, hbm⟩ :=
    map_alloc_ok_elim A A' hal hal' start size fl false hrun
  unfold backendMap backendMapAllocLazy at hbm
  simp only [Bool.false_eq_true, if_false, ha1, ha2, Bool.and_self, if_true] at hbm
  have hmr : mapRegion4K A.pt start (size / 4096) (fun _ => 0)
      MappingFlags.empty = (true, A'.pt) := by
    cases hmr0 : mapRegion4K A.pt start (size / 4096) (fun _ => 0)
      MappingFlags.empty with
    | mk ok pt2 =>
      rw [hmr0] at hbm
      simp only [Prod.mk.injEq] at hbm
      rw [hbm.1, hbm.2.1]
  have hsm : size % 4096 = 0 := isAligned4K_mod size ha2
  have hst : start % 4096 = 0 := isAligned4K_mod start ha1
  have hvc : A'.vaContains gpa = true := by
    simp only [AddrSpace.containsRange, decide_eq_true_eq] at hcr
    simp only [AddrSpace.vaContains, hb, has, decide_eq_true_eq]
    omega
  constructor
  · have hq := mapRegionLazy_query_none (size / 4096) A.pt A'.pt start gpa hwf
      hst hmr hg1 (by omega)
    unfold AddrSpace.translate
    simp [hvc, hq]
  · intro A'' hal2 hal'' f hhal _hcont hpf
    exact hpf_true_translate A' A'' hal2 hal'' gpa f hhal hpf

/-- C6 counterexample: the linear-identity claim fails on the code in two
corners. Mapping guest page 0 to host frame 0 with empty flags stores an
all-zero EPT entry, so `translate(0)` is `None` rather than
`Some(0 - delta)`; and mapping to host base `2 ^ 52` (outside
`PHYS_ADDR_MASK`) truncates the stored frame address, so `translate` returns
`Some(0)` instead of `Some(2 ^ 52)`. -/
theorem c6_counterexample :
    (((AddrSpace.newEmpty 0 0x10000).map_linear 0 0 0x1000 .empty []).1 = .ok ∧
      zeroLinAspace.translate 0 = none ∧ wsub 0 (wsub 0 0) = 0) ∧
    (((AddrSpace.newEmpty 0x10000 0x10000).map_linear 0x10000 (2 ^ 52) 0x1000
        .rw []).1 = .ok ∧
      highLinAspace.translate 0x10000 = some 0 ∧
      wsub 0x10000 (wsub 0x10000 (2 ^ 52)) = 2 ^ 52 ∧ (0 : Nat) ≠ 2 ^ 52) :=
  ⟨⟨by decide, by decide, by decide⟩, ⟨by decide, by decide, by decide, by decide⟩⟩

/-- C6 (amended): for every AddrSpace on which
`map_linear(start_gpa, start_hpa, size, flags)` succeeded with flags
containing at least one of READ/WRITE/EXECUTE and with the host range inside
the 52-bit physical address space, `translate(gpa)` returns
`Some(gpa - delta)` (usize wrap-around subtraction) for every gpa in the
region, where `delta = start_gpa - start_hpa` is the region's
`pa_va_offset`. -/
theorem c6_amended (A A' : AddrSpace) (hal hal' : Hal) (sv sp size gpa : Nat)
    (fl : MappingFlags)
    (hwf : ptWF A.pt)
    (hrwx : fl.read = true ∨ fl.write = true ∨ fl.execute = true)
    (hbound : sp + size ≤ 2 ^ 52)
    (hrun : A.map_linear sv sp size fl hal = (.ok, A', hal'))
    (hg1 : sv ≤ gpa) (hg2 : gpa < sv + size) :
    A'.translate gpa = some (wsub gpa (wsub sv sp)) := by
  obtain ⟨hcr, ha1, ha2, ha3, hsz, hb, has, -, hmr⟩ :=
    map_linear_ok_elim A A' hal hal' sv sp size fl hrun
  have hsvm : sv % 4096 = 0 := isAligned4K_mod sv ha1
  have hspm : sp % 4096 = 0 := isAligned4K_mod sp ha2
  have hszm : size % 4096 = 0 := isAligned4K_mod size ha3
  have hUS : sp + size ≤ USIZE := by
    unfold USIZE
    have : (2 : Nat) ^ 52 ≤ 2 ^ 64 := by norm_num
    omega
  have hpe : alignDown gpa 4096 % 4096 = 0 := alignDown_mod gpa 4096
  have hple : sv ≤ alignDown gpa 4096 := by
    unfold alignDown
    omega
  have hpge : alignDown gpa 4096 ≤ gpa := by
    unfold alignDown
    omega
  have hpfn : wsub (alignDown gpa 4096) (wsub sv sp) =
      sp + (alignDown gpa 4096 - sv) :=
    wsub_sub sv sp (alignDown gpa 4096) hple (by unfold USIZE; omega)
      (by unfold USIZE; omega)
  have hgw : wsub gpa (wsub sv sp) = sp + (gpa - sv) :=
    wsub_sub sv sp gpa hg1 (by unfold USIZE; omega) (by unfold USIZE; omega)
  have hq := mapRegionLinear_query (size / 4096) A.pt A'.pt sv gpa
    (fun va => wsub va (wsub sv sp)) fl hwf hsvm hmr hg1 (by omega) hrwx
    (by show wsub (alignDown gpa 4096) (wsub sv sp) % 4096 = 0
        rw [hpfn]
        omega)
    (by show wsub (alignDown gpa 4096) (wsub sv sp) < 2 ^ 52
        rw [hpfn]
        omega)
  have hvc : A'.vaContains gpa = true := by
    simp only [AddrSpace.containsRange, decide_eq_true_eq] at hcr
    simp only [AddrSpace.vaContains, hb, has, decide_eq_true_eq]
    omega
  unfold AddrSpace.translate
  simp only [hvc, Bool.not_true, Bool.false_eq_true, if_false, hq, Option.map_some]
  have harith : wsub (alignDown gpa 4096) (wsub sv sp) + gpa % 4096 =
      wsub gpa (wsub sv sp) := by
    rw [hpfn, hgw]
    unfold alignDown
    omega
  rw [harith]
  rfl



theorem c4_witness :
    lazyAspace.translate 0x13000 = none ∧
    (∃ pa, ((lazyAspace.handle_page_fault 0x13000 .rw
      [0x200000]).2.1).translate 0x13000 = some pa) := by
  have h := c4_lazy_alloc (AddrSpace.newEmpty 0x10000 0x10000) lazyAspace
    halScenario halScenario 0x13000 0x1000 0x13000 .rw
    (by intro e he; simp [AddrSpace.newEmpty] at he)
    (by decide) (by decide) (by decide) (by decide)
  refine ⟨h.1, ?_⟩
  exact h.2 ((lazyAspace.handle_page_fault 0x13000 .rw [0x200000]).2.1)
    [0x200000] ((lazyAspace.handle_page_fault 0x13000 .rw [0x200000]).2.2) .rw
    (by
      intro g hg
      simp only [List.mem_singleton] at hg
      subst hg
      refine ⟨by norm_num, by norm_num, by norm_num⟩)
    (by decide) (by decide)

theorem c6_witness : linearAspace.translate 0x19000 = some 0x11000 := by
  have h := c6_amended (AddrSpace.newEmpty 0x10000 0x10000) linearAspace [] []
    0x18000 0x10000 0x2000 0x19000 .rw
    (by intro e he; simp [AddrSpace.newEmpty] at he)
    (Or.inl rfl) (by norm_num) (by decide) (by decide) (by decide)
  rw [show wsub 0x19000 (wsub 0x18000 0x10000) = 0x11000 from by decide] at h
  exact h

end AxAddrSpace
